import Mathlib

/-!
Verification of the `dcblocker` DC-offset filter from
`src/source/projects/dcblocker_tilde/dcblocker_tilde.cpp`.

The C++ object holds two `sample` (double) history members `x_1`, `y_1`,
a boolean attribute `bypass` (default `false`), a method
`clear` setting `x_1 = y_1 = 0.0`, and a per-sample method

    sample calculate(sample x) {
        if (bypass) return x;
        else {
            auto y = x - x_1 + y_1 * 0.9997;
            y_1 = y;  x_1 = x;
            return y;
        }
    }

We embed the state as a structure and `calculate` / `clear` as explicit
state-passing functions over `ℝ` (the idealization of `double`), plus a
second embedding over an extended sample type with NaN and infinities for
the claims that concern non-finite values.
-/

/-- Filter state: input history `x_1`, output history `y_1`, and the
`bypass` attribute. -/
structure dcblocker where
  x_1 : ℝ
  y_1 : ℝ
  bypass : Bool

/-- `dcblocker::calculate`, embedded with explicit state passing:
returns the output sample and the updated state. -/
def calculate (s : dcblocker) (x : ℝ) : ℝ × dcblocker :=
  if s.bypass then (x, s)
  else
    let y := x - s.x_1 + s.y_1 * 0.9997
    (y, { s with y_1 := y, x_1 := x })

/-- `dcblocker::clear` (`x_1 = y_1 = 0.0`). -/
def clear (s : dcblocker) : dcblocker :=
  { s with x_1 := 0.0, y_1 := 0.0 }

/-- Modelled from the spec: the initial values of the `x_1` and `y_1`
members are established by the min-api object allocation machinery in
`c74_min.h`, which is not under `src/`; the spec states that state is
created with both histories at `0.0`.  The `bypass` default `false` is
in the source (`ATTRIBUTE (bypass, bool, false)`). -/
def initialState : dcblocker :=
  { x_1 := 0.0, y_1 := 0.0, bypass := false }

/-- Run `calculate` over a list of input samples from a starting state,
returning the list of outputs and the final state. -/
def processSeq (s : dcblocker) : List ℝ → List ℝ × dcblocker
  | [] => ([], s)
  | x :: xs =>
    let p := calculate s x
    let q := processSeq p.2 xs
    (p.1 :: q.1, q.2)

/-- Fresh zeroed non-bypassed filter fed the constant input `c`:
`constRun c n` is the output and state after the `(n+1)`-th call. -/
def constRun (c : ℝ) : ℕ → ℝ × dcblocker
  | 0 => calculate { x_1 := 0.0, y_1 := 0.0, bypass := false } c
  | n + 1 => calculate (constRun c n).2 c

/-- Extended sample value: a finite double idealized as a real, positive
or negative infinity, or NaN.  Used to state the claims about non-finite
inputs to `calculate`. -/
inductive ESample where
  | fin (r : ℝ)
  | pinf
  | ninf
  | nan

/-- IEEE-754 addition on extended samples (finite overflow abstracted to
real addition). -/
def eadd : ESample → ESample → ESample
  | .nan, _ => .nan
  | _, .nan => .nan
  | .fin a, .fin b => .fin (a + b)
  | .pinf, .ninf => .nan
  | .ninf, .pinf => .nan
  | .pinf, _ => .pinf
  | _, .pinf => .pinf
  | .ninf, _ => .ninf
  | _, .ninf => .ninf

/-- IEEE-754 subtraction on extended samples (finite overflow abstracted
to real subtraction). -/
def esub : ESample → ESample → ESample
  | .nan, _ => .nan
  | _, .nan => .nan
  | .fin a, .fin b => .fin (a - b)
  | .pinf, .pinf => .nan
  | .ninf, .ninf => .nan
  | .pinf, _ => .pinf
  | _, .pinf => .ninf
  | .ninf, _ => .ninf
  | _, .ninf => .pinf

/-- IEEE-754 multiplication by the positive constant `0.9997` appearing
in `calculate`. -/
def emulCoef : ESample → ESample
  | .nan => .nan
  | .fin a => .fin (a * 0.9997)
  | .pinf => .pinf
  | .ninf => .ninf

/-- The extended sample is a finite value. -/
def isFin : ESample → Prop
  | .fin _ => True
  | _ => False

/-- Filter state over extended samples. -/
structure EState where
  x_1 : ESample
  y_1 : ESample
  bypass : Bool

/-- `dcblocker::calculate` over extended samples. -/
def ecalculate (s : EState) (x : ESample) : ESample × EState :=
  if s.bypass then (x, s)
  else
    let y := eadd (esub x s.x_1) (emulCoef s.y_1)
    (y, { s with y_1 := y, x_1 := x })

/-- `dcblocker::clear` over extended samples. -/
def eclear (s : EState) : EState :=
  { s with x_1 := .fin 0.0, y_1 := .fin 0.0 }

/-- Run `ecalculate` over a list of extended input samples. -/
def eprocessSeq (s : EState) : List ESample → List ESample × EState
  | [] => ([], s)
  | x :: xs =>
    let p := ecalculate s x
    let q := eprocessSeq p.2 xs
    (p.1 :: q.1, q.2)

/-- Helper: one non-bypassed step of `calculate`, spelled out. -/
theorem calculate_false_eq (s : dcblocker) (x : ℝ) (h : s.bypass = false) :
    calculate s x =
      (x - s.x_1 + s.y_1 * 0.9997,
       { x_1 := x, y_1 := x - s.x_1 + s.y_1 * 0.9997, bypass := s.bypass }) := by
  simp [calculate, h]

/-- Helper: closed form of the constant-input run:
output `c * 0.9997 ^ n` and state `⟨c, c * 0.9997 ^ n, false⟩`. -/
theorem constRun_closed (c : ℝ) (n : ℕ) :
    constRun c n =
      (c * 0.9997 ^ n, { x_1 := c, y_1 := c * 0.9997 ^ n, bypass := false }) := by
  induction n with
  | zero =>
    simp [constRun, calculate]
    norm_num
  | succ n ih =>
    rw [constRun, ih, calculate_false_eq _ _ rfl]
    simp only [Prod.mk.injEq, dcblocker.mk.injEq]
    refine ⟨by ring, trivial, by ring, trivial⟩

/-! ## Theorems -/

/-- C1: with `bypass = false`, `calculate` returns
`y = x - x_1 + y_1 * 0.9997`, and afterwards `y_1 = y` and `x_1 = x`
(and `bypass` is unchanged). -/
theorem calculate_not_bypassed (s : dcblocker) (x : ℝ)
    (h : s.bypass = false) :
    calculate s x =
      (x - s.x_1 + s.y_1 * 0.9997,
       { x_1 := x, y_1 := x - s.x_1 + s.y_1 * 0.9997, bypass := s.bypass }) := by
  simp [calculate, h]

/-- Witness for C1 at the state `⟨1, 2, false⟩` and input `3`. -/
theorem calculate_not_bypassed_witness :
    (({ x_1 := 1, y_1 := 2, bypass := false } : dcblocker).bypass = false) ∧
    calculate { x_1 := 1, y_1 := 2, bypass := false } 3 =
      (3 - 1 + 2 * 0.9997,
       { x_1 := 3, y_1 := 3 - 1 + 2 * 0.9997, bypass := false }) :=
  ⟨rfl, calculate_not_bypassed { x_1 := 1, y_1 := 2, bypass := false } 3 rfl⟩

/-- C2: the freshly constructed filter has `x_1 = 0`, `y_1 = 0` and
`bypass = false`. -/
theorem initialState_spec :
    initialState.x_1 = 0.0 ∧ initialState.y_1 = 0.0 ∧
    initialState.bypass = false :=
  ⟨rfl, rfl, rfl⟩

/-- C3: with `bypass = true`, `calculate` returns its input and leaves the
state exactly as it was. -/
theorem calculate_bypassed (s : dcblocker) (x : ℝ) (h : s.bypass = true) :
    calculate s x = (x, s) := by
  simp [calculate, h]

/-- Witness for C3 at the state `⟨5, 7, true⟩` and input `11`. -/
theorem calculate_bypassed_witness :
    (({ x_1 := 5, y_1 := 7, bypass := true } : dcblocker).bypass = true) ∧
    calculate { x_1 := 5, y_1 := 7, bypass := true } 11 =
      (11, { x_1 := 5, y_1 := 7, bypass := true }) :=
  ⟨rfl, calculate_bypassed { x_1 := 5, y_1 := 7, bypass := true } 11 rfl⟩

/-- C4: `clear` zeroes both histories regardless of the prior state, and
the first non-bypassed `calculate` after a `clear` returns its input. -/
theorem clear_then_calculate (s : dcblocker) (x : ℝ) :
    (clear s).x_1 = 0.0 ∧ (clear s).y_1 = 0.0 ∧
    (s.bypass = false → (calculate (clear s) x).1 = x) := by
  refine ⟨rfl, rfl, fun h => ?_⟩
  simp [calculate, clear, h]
  norm_num

/-- Witness for C4 at the state `⟨4, 9, false⟩` and input `13`. -/
theorem clear_then_calculate_witness :
    (clear { x_1 := 4, y_1 := 9, bypass := false }).x_1 = 0.0 ∧
    (clear { x_1 := 4, y_1 := 9, bypass := false }).y_1 = 0.0 ∧
    (({ x_1 := 4, y_1 := 9, bypass := false } : dcblocker).bypass = false →
      (calculate (clear { x_1 := 4, y_1 := 9, bypass := false }) 13).1 = 13) :=
  clear_then_calculate { x_1 := 4, y_1 := 9, bypass := false } 13

/-- Claim C5: a fresh zeroed non-bypassed filter fed the constant `c ≠ 0`
outputs `y 0 = c`, satisfies `y (n+1) = 0.9997 * y n`, and the magnitudes
`|y n|` are strictly decreasing and tend to `0`. -/
theorem constRun_decays (c : ℝ) (hc : c ≠ 0) :
    (constRun c 0).1 = c ∧
    (∀ n, (constRun c (n + 1)).1 = 0.9997 * (constRun c n).1) ∧
    StrictAnti (fun n => |(constRun c n).1|) ∧
    Filter.Tendsto (fun n => |(constRun c n).1|) Filter.atTop (nhds 0) := by
  have habs : ∀ n : ℕ, |(constRun c n).1| = |c| * 0.9997 ^ n := by
    intro n
    have hp : (0:ℝ) < 0.9997 ^ n := pow_pos (by norm_num) n
    rw [constRun_closed, abs_mul, abs_of_pos hp]
  refine ⟨by rw [constRun_closed]; ring, fun n => ?_, ?_, ?_⟩
  · rw [constRun_closed, constRun_closed]; ring
  · apply strictAnti_nat_of_succ_lt
    intro n
    rw [habs, habs, pow_succ]
    have hcpos : 0 < |c| := abs_pos.mpr hc
    have hpow : (0:ℝ) < 0.9997 ^ n := pow_pos (by norm_num) n
    calc |c| * (0.9997 ^ n * 0.9997) < |c| * (0.9997 ^ n * 1) := by
          apply mul_lt_mul_of_pos_left _ hcpos
          apply mul_lt_mul_of_pos_left (by norm_num) hpow
      _ = |c| * 0.9997 ^ n := by ring
  · have h1 : Filter.Tendsto (fun n : ℕ => (0.9997:ℝ) ^ n)
        Filter.atTop (nhds 0) :=
      tendsto_pow_atTop_nhds_zero_of_lt_one (by norm_num) (by norm_num)
    have h2 := h1.const_mul |c|
    rw [mul_zero] at h2
    refine h2.congr fun n => ?_
    rw [habs]

/-- Witness for C5 at `c = 1`. -/
theorem constRun_decays_witness :
    ((1:ℝ) ≠ 0) ∧
    ((constRun 1 0).1 = 1 ∧
     (∀ n, (constRun 1 (n + 1)).1 = 0.9997 * (constRun 1 n).1) ∧
     StrictAnti (fun n => |(constRun 1 n).1|) ∧
     Filter.Tendsto (fun n => |(constRun 1 n).1|) Filter.atTop (nhds 0)) :=
  ⟨by norm_num, constRun_decays 1 (by norm_num)⟩

/-- Helper: linear combination of two non-bypassed states. -/
theorem processSeq_linear_aux (a b : ℝ) :
    ∀ (A B : List ℝ) (s1 s2 : dcblocker), A.length = B.length →
      s1.bypass = false → s2.bypass = false →
      processSeq
          { x_1 := a * s1.x_1 + b * s2.x_1,
            y_1 := a * s1.y_1 + b * s2.y_1, bypass := false }
          (List.zipWith (fun x y => a * x + b * y) A B) =
        (List.zipWith (fun x y => a * x + b * y)
            (processSeq s1 A).1 (processSeq s2 B).1,
         { x_1 := a * (processSeq s1 A).2.x_1 + b * (processSeq s2 B).2.x_1,
           y_1 := a * (processSeq s1 A).2.y_1 + b * (processSeq s2 B).2.y_1,
           bypass := false }) := by
  intro A
  induction A with
  | nil =>
    intro B s1 s2 hlen hb1 hb2
    cases B with
    | nil =>
      cases s1; cases s2
      simp_all [processSeq]
    | cons y ys => simp at hlen
  | cons x xs ih =>
    intro B s1 s2 hlen hb1 hb2
    cases B with
    | nil => simp at hlen
    | cons y ys =>
      simp only [List.zipWith_cons_cons, processSeq]
      rw [calculate_false_eq _ _ rfl, calculate_false_eq _ _ hb1,
        calculate_false_eq _ _ hb2]
      simp only
      have hy : a * x + b * y - (a * s1.x_1 + b * s2.x_1) +
          (a * s1.y_1 + b * s2.y_1) * 0.9997 =
          a * (x - s1.x_1 + s1.y_1 * 0.9997) +
          b * (y - s2.x_1 + s2.y_1 * 0.9997) := by ring
      rw [hy, hb1, hb2,
        ih ys { x_1 := x, y_1 := x - s1.x_1 + s1.y_1 * 0.9997, bypass := false }
          { x_1 := y, y_1 := y - s2.x_1 + s2.y_1 * 0.9997, bypass := false }
          (by simpa using hlen) rfl rfl]

/-- Claim C6: the non-bypassed filter is linear: processing the sample-wise
combination `a*A + b*B` from a fresh reset filter gives, sample-wise,
`a` times the output of `A` plus `b` times the output of `B`, each run on
its own fresh reset filter. -/
theorem processSeq_linear (a b : ℝ) (A B : List ℝ) (h : A.length = B.length) :
    (processSeq initialState (List.zipWith (fun x y => a * x + b * y) A B)).1 =
      List.zipWith (fun x y => a * x + b * y)
        (processSeq initialState A).1 (processSeq initialState B).1 := by
  have key := processSeq_linear_aux a b A B initialState initialState h rfl rfl
  have hs : ({ x_1 := a * initialState.x_1 + b * initialState.x_1,
               y_1 := a * initialState.y_1 + b * initialState.y_1,
               bypass := false } : dcblocker) = initialState := by
    simp [initialState]
    ring
  rw [hs] at key
  exact congrArg Prod.fst key

/-- Witness for C6 at `a = 2`, `b = 3`, `A = [1, 5]`, `B = [10, 20]`. -/
theorem processSeq_linear_witness :
    ([(1:ℝ), 5].length = [(10:ℝ), 20].length) ∧
    (processSeq initialState
        (List.zipWith (fun x y => 2 * x + 3 * y) [(1:ℝ), 5] [(10:ℝ), 20])).1 =
      List.zipWith (fun x y => 2 * x + 3 * y)
        (processSeq initialState [(1:ℝ), 5]).1
        (processSeq initialState [(10:ℝ), 20]).1 :=
  ⟨rfl, processSeq_linear 2 3 [1, 5] [10, 20] rfl⟩

/-- Claim C10: after `clear`, no influence of the prior history remains:
two states with the same `bypass` flag, both cleared and fed the same
inputs, produce identical outputs and identical final states. -/
theorem clear_erases_history (s1 s2 : dcblocker) (xs : List ℝ)
    (h : s1.bypass = s2.bypass) :
    processSeq (clear s1) xs = processSeq (clear s2) xs := by
  have : clear s1 = clear s2 := by
    cases s1; cases s2
    simp_all [clear]
  rw [this]

/-- Helper: adding NaN on the right gives NaN. -/
theorem eadd_nan_right (a : ESample) : eadd a ESample.nan = ESample.nan := by
  cases a <;> rfl

/-- Helper: subtracting from NaN gives NaN. -/
theorem esub_nan_left (b : ESample) : esub ESample.nan b = ESample.nan := by
  cases b <;> rfl

/-- Helper: once the output history is NaN, every following non-bypassed
output is NaN and the output history stays NaN. -/
theorem eprocessSeq_nan_state (xs : List ESample) :
    ∀ s : EState, s.bypass = false → s.y_1 = ESample.nan →
      (∀ o ∈ (eprocessSeq s xs).1, o = ESample.nan) ∧
      (eprocessSeq s xs).2.y_1 = ESample.nan ∧
      (eprocessSeq s xs).2.bypass = false := by
  induction xs with
  | nil =>
    intro s hb hy
    exact ⟨by simp [eprocessSeq], hy, hb⟩
  | cons x xs ih =>
    intro s hb hy
    have hstep : ecalculate s x =
        (ESample.nan, { s with y_1 := ESample.nan, x_1 := x }) := by
      simp [ecalculate, hb, hy, emulCoef, eadd_nan_right]
    have := ih { s with y_1 := ESample.nan, x_1 := x } hb rfl
    simp only [eprocessSeq, hstep]
    exact ⟨fun o ho => by
      rcases List.mem_cons.mp ho with h | h
      · exact h
      · exact this.1 o h, this.2.1, this.2.2⟩

/-- Helper: the arithmetic of `ecalculate` maps finite values to finite
values. -/
theorem eadd_fin {a b : ESample} (ha : isFin a) (hb : isFin b) :
    isFin (eadd a b) := by
  cases a <;> cases b <;> simp_all [isFin, eadd]

/-- Helper: subtraction of finite values is finite. -/
theorem esub_fin {a b : ESample} (ha : isFin a) (hb : isFin b) :
    isFin (esub a b) := by
  cases a <;> cases b <;> simp_all [isFin, esub]

/-- Helper: scaling a finite value by the coefficient is finite. -/
theorem emulCoef_fin {a : ESample} (ha : isFin a) : isFin (emulCoef a) := by
  cases a <;> simp_all [isFin, emulCoef]

/-- Helper: from a state with finite histories, finite inputs give finite
outputs and finite histories. -/
theorem eprocessSeq_fin (xs : List ESample) :
    ∀ s : EState, isFin s.x_1 → isFin s.y_1 → (∀ z ∈ xs, isFin z) →
      (∀ o ∈ (eprocessSeq s xs).1, isFin o) ∧
      isFin (eprocessSeq s xs).2.x_1 ∧ isFin (eprocessSeq s xs).2.y_1 := by
  induction xs with
  | nil =>
    intro s hx hy _
    exact ⟨by simp [eprocessSeq], hx, hy⟩
  | cons x xs ih =>
    intro s hx hy hz
    have hxfin : isFin x := hz x (List.mem_cons_self x xs)
    have hrest : ∀ z ∈ xs, isFin z := fun z h => hz z (List.mem_cons_of_mem x h)
    cases hcase : s.bypass with
    | true =>
      have hstep : ecalculate s x = (x, s) := by simp [ecalculate, hcase]
      have := ih s hx hy hrest
      simp only [eprocessSeq, hstep]
      exact ⟨fun o ho => by
        rcases List.mem_cons.mp ho with h | h
        · exact h ▸ hxfin
        · exact this.1 o h, this.2⟩
    | false =>
      have hyfin : isFin (eadd (esub x s.x_1) (emulCoef s.y_1)) :=
        eadd_fin (esub_fin hxfin hx) (emulCoef_fin hy)
      have hstep : ecalculate s x =
          (eadd (esub x s.x_1) (emulCoef s.y_1),
           { s with y_1 := eadd (esub x s.x_1) (emulCoef s.y_1), x_1 := x }) := by
        simp [ecalculate, hcase]
      have := ih { s with y_1 := eadd (esub x s.x_1) (emulCoef s.y_1), x_1 := x }
        hxfin hyfin hrest
      simp only [eprocessSeq, hstep]
      exact ⟨fun o ho => by
        rcases List.mem_cons.mp ho with h | h
        · exact h ▸ hyfin
        · exact this.1 o h, this.2⟩

/-- Claim C7: feeding a single NaN to a non-bypassed filter makes the NaN
output immediately and makes every following output NaN no matter what
finite inputs follow; after `eclear`, all outputs are finite again as long
as all following inputs are finite. -/
theorem nan_until_clear (s : EState) (xs ys : List ESample)
    (hb : s.bypass = false)
    (_hxs : ∀ z ∈ xs, isFin z) (hys : ∀ z ∈ ys, isFin z) :
    (ecalculate s ESample.nan).1 = ESample.nan ∧
    (∀ o ∈ (eprocessSeq (ecalculate s ESample.nan).2 xs).1, o = ESample.nan) ∧
    (∀ o ∈ (eprocessSeq
        (eclear (eprocessSeq (ecalculate s ESample.nan).2 xs).2) ys).1,
      isFin o) := by
  have hstep : ecalculate s ESample.nan =
      (ESample.nan,
       { s with y_1 := ESample.nan, x_1 := ESample.nan }) := by
    simp [ecalculate, hb, esub_nan_left, eadd]
  have hprop := eprocessSeq_nan_state xs
    { s with y_1 := ESample.nan, x_1 := ESample.nan } hb rfl
  have hfin := eprocessSeq_fin ys
    (eclear (eprocessSeq { s with y_1 := ESample.nan, x_1 := ESample.nan } xs).2)
    (by simp [eclear, isFin]) (by simp [eclear, isFin]) hys
  rw [hstep]
  exact ⟨rfl, hprop.1, hfin.1⟩

/-- Witness for C7 at the state `⟨fin 1, fin 2, false⟩`, contaminating
inputs `[fin 3, fin 4]` and post-clear inputs `[fin 5]`. -/
theorem nan_until_clear_witness :
    (({ x_1 := .fin 1, y_1 := .fin 2, bypass := false } : EState).bypass
        = false) ∧
    ((∀ z ∈ [ESample.fin 3, ESample.fin 4], isFin z) ∧
     (∀ z ∈ [ESample.fin 5], isFin z)) ∧
    ((ecalculate { x_1 := .fin 1, y_1 := .fin 2, bypass := false }
        ESample.nan).1 = ESample.nan ∧
     (∀ o ∈ (eprocessSeq
        (ecalculate { x_1 := .fin 1, y_1 := .fin 2, bypass := false }
          ESample.nan).2 [ESample.fin 3, ESample.fin 4]).1,
        o = ESample.nan) ∧
     (∀ o ∈ (eprocessSeq
        (eclear (eprocessSeq
          (ecalculate { x_1 := .fin 1, y_1 := .fin 2, bypass := false }
            ESample.nan).2 [ESample.fin 3, ESample.fin 4]).2)
        [ESample.fin 5]).1, isFin o)) :=
  ⟨rfl, ⟨by simp [isFin], by simp [isFin]⟩,
   nan_until_clear { x_1 := .fin 1, y_1 := .fin 2, bypass := false }
     [ESample.fin 3, ESample.fin 4] [ESample.fin 5] rfl
     (by simp [isFin]) (by simp [isFin])⟩

/-- Claim C8: `calculate` and `clear` are total: for every state and every
extended input (finite, infinite or NaN) they return a result; there is no
error or failure branch. -/
theorem calculate_clear_total (s : EState) (x : ESample) :
    (∃ y t, ecalculate s x = (y, t)) ∧ ∃ t, eclear s = t :=
  ⟨⟨(ecalculate s x).1, (ecalculate s x).2, rfl⟩, eclear s, rfl⟩

/-- Claim C9: with `bypass = true`, `calculate` returns its argument
unmodified and leaves the state untouched for every extended input,
including NaN and the infinities. -/
theorem ecalculate_bypassed_id (s : EState) (x : ESample)
    (h : s.bypass = true) : ecalculate s x = (x, s) := by
  simp [ecalculate, h]

/-- Witness for C9 at the state `⟨fin 1, fin 2, true⟩` with inputs NaN and
positive infinity. -/
theorem ecalculate_bypassed_id_witness :
    (({ x_1 := .fin 1, y_1 := .fin 2, bypass := true } : EState).bypass
        = true) ∧
    ecalculate { x_1 := .fin 1, y_1 := .fin 2, bypass := true }
        ESample.nan =
      (ESample.nan, { x_1 := .fin 1, y_1 := .fin 2, bypass := true }) ∧
    ecalculate { x_1 := .fin 1, y_1 := .fin 2, bypass := true }
        ESample.pinf =
      (ESample.pinf, { x_1 := .fin 1, y_1 := .fin 2, bypass := true }) :=
  ⟨rfl, ecalculate_bypassed_id _ _ rfl, ecalculate_bypassed_id _ _ rfl⟩

/-- Witness for C10 at states `⟨1, 2, false⟩`, `⟨30, 40, false⟩` and
inputs `[7, 8]`. -/
theorem clear_erases_history_witness :
    (({ x_1 := 1, y_1 := 2, bypass := false } : dcblocker).bypass =
      ({ x_1 := 30, y_1 := 40, bypass := false } : dcblocker).bypass) ∧
    processSeq (clear { x_1 := 1, y_1 := 2, bypass := false }) [7, 8] =
      processSeq (clear { x_1 := 30, y_1 := 40, bypass := false }) [7, 8] :=
  ⟨rfl, clear_erases_history _ _ [7, 8] rfl⟩
